import Mathlib

/-!
Shallow embedding of `src/quebap/model/reader.py`: the `AtomicBatcher`
batching layer (lexicon construction, windowed batch generation with
negative sampling) and the dot product scorer
`create_dot_product_scorer`.  Tensorflow graph construction is modelled
by pure functions over lists; python exceptions are modelled with
`Except`.
-/

set_option linter.unusedVariables false

deriving instance DecidableEq for Except

/-- Shape of one answer record; only the `text` field is read by the reader. -/
structure Answer where
  text : String
deriving DecidableEq

/-- Shape of one question record: the question text and its answer list. -/
structure Question where
  question : String
  answers : List Answer
deriving DecidableEq

/-- Shape of one dataset instance: a list of question records.  Only the
first entry is read by the batcher. -/
structure Instance where
  questions : List Question
deriving DecidableEq

/-- Shape of one global candidate record; only the `text` field is read. -/
structure Candidate where
  text : String
deriving DecidableEq

/-- Shape of the `globals` section of a quebap dataset. -/
structure Globals where
  candidates : List Candidate
deriving DecidableEq

/-- Shape of a quebap dataset: a `globals` section and an instance list. -/
structure Quebap where
  globals : Globals
  instances : List Instance
deriving DecidableEq

/-- Python exceptions raised by the batching layer: `KeyError` from a
lexicon lookup, `IndexError` from indexing an empty list, `ValueError`
from `randint` on an empty range. -/
inductive Err where
  | keyError (key : String)
  | indexError
  | valueError
deriving DecidableEq

/-- Python list indexing `xs[i]`, raising `IndexError` when out of range. -/
def listGet {α : Type} (xs : List α) (i : Nat) : Except Err α :=
  match xs[i]? with
  | some x => .ok x
  | none => .error .indexError

/-- Evaluation of a python list comprehension whose body may raise: the
elements are produced left to right and the first exception propagates. -/
def exceptMap {α β : Type} (f : α → Except Err β) : List α → Except Err (List β)
  | [] => .ok []
  | x :: xs =>
    match f x with
    | .error e => .error e
    | .ok y =>
      match exceptMap f xs with
      | .error e => .error e
      | .ok ys => .ok (y :: ys)

/-- Modelled from the spec: the class `FrozenIdentifier` is imported from
`quebap.projects.modelF.structs`, a module that is not part of this source
tree.  Spec section 4.1: an immutable bijection between a finite set of
symbols and dense integer ids `0..n-1`; construction deduplicates and
assigns ids in a deterministic order (sorted lexical order); looking up a
symbol that was absent at construction time fails. -/
structure FrozenIdentifier where
  symbols : List String
deriving DecidableEq

/-- Lexicographic order on lists of characters, by code point. -/
def charListLe : List Char → List Char → Bool
  | [], _ => true
  | _ :: _, [] => false
  | a :: as, b :: bs =>
    if a.toNat < b.toNat then true
    else if b.toNat < a.toNat then false
    else charListLe as bs

/-- Lexical order on strings, by code point. -/
def strLe (a b : String) : Bool := charListLe a.data b.data

/-- Insertion of a string into a sorted list of strings. -/
def insertStr (s : String) : List String → List String
  | [] => [s]
  | x :: xs => if strLe s x then s :: x :: xs else x :: insertStr s xs

/-- Insertion sort of a list of strings into lexical order. -/
def sortStrs : List String → List String
  | [] => []
  | x :: xs => insertStr x (sortStrs xs)

/-- Modelled from the spec: `FrozenIdentifier` construction deduplicates
the input symbols and fixes a deterministic id assignment (sorted
lexical order), the id of a symbol being its position in the list. -/
def FrozenIdentifier.build (symbols : List String) : FrozenIdentifier :=
  ⟨sortStrs symbols.dedup⟩

/-- Position of a string in a list, if present. -/
def strIdx (s : String) : List String → Option Nat
  | [] => none
  | x :: xs => if x = s then some 0 else (strIdx s xs).map (· + 1)

/-- Modelled from the spec: lexicon lookup `lexicon[symbol]` returns the id
of the symbol and raises `KeyError` when the symbol is unknown. -/
def FrozenIdentifier.lookup (f : FrozenIdentifier) (s : String) : Except Err Nat :=
  match strIdx s f.symbols with
  | some i => .ok i
  | none => .error (.keyError s)

/-- Number of distinct symbols in the lexicon, `len(lexicon)`. -/
def FrozenIdentifier.size (f : FrozenIdentifier) : Nat := f.symbols.length

/-- Modelled from the spec: the private pseudo random source is python
stdlib `random.Random`, which is external to this source tree.  The spec
requires a deterministic source seeded with a fixed constant; the state
records the seed and the number of draws made so far, each draw being a
deterministic mix of the two. -/
structure RandState where
  seed : Nat
  count : Nat
deriving DecidableEq

/-- Construction `random.Random(seed)`: a fresh state with no draws made. -/
def RandState.mk0 (seed : Nat) : RandState := ⟨seed, 0⟩

/-- Deterministic raw draw of the modelled pseudo random source. -/
def mixDraw (s : RandState) : Nat :=
  (s.seed + s.count * 2654435761) % 4294967296

/-- Modelled from the spec and python semantics: `randint a b` draws an
integer in the closed range `a..b` and raises `ValueError` when the range
is empty (`b < a`). -/
def randint (s : RandState) (a b : Int) : Except Err (Int × RandState) :=
  if b < a then .error .valueError
  else .ok (a + (mixDraw s : Int) % (b - a + 1), ⟨s.seed, s.count + 1⟩)

/-- State of an `AtomicBatcher` object.  The tensorflow placeholder fields
of the python object carry no data and are omitted. -/
structure AtomicBatcher where
  reference_data : Quebap
  question_lexicon : FrozenIdentifier
  candidate_lexicon : FrozenIdentifier
  random : RandState
  num_candidates : Nat
  num_questions : Nat
deriving DecidableEq

/-- Extraction of the first question text of an instance,
`inst.questions[0].question`. -/
def firstQuestionText (inst : Instance) : Except Err String :=
  match listGet inst.questions 0 with
  | .error e => .error e
  | .ok q => .ok q.question

/-- Embedding of `AtomicBatcher.__init__` (reader.py lines 41-59): build
the question lexicon from the set of first question texts of the
instances, the candidate lexicon from the set of global candidate texts,
and seed the private random source with the constant 0. -/
def AtomicBatcher.init (reference_data : Quebap) : Except Err AtomicBatcher :=
  let global_candidates := reference_data.globals.candidates
  let all_candidates := global_candidates.map (fun c => c.text)
  let instances := reference_data.instances
  match exceptMap firstQuestionText instances with
  | .error e => .error e
  | .ok all_questions =>
    let question_lexicon := FrozenIdentifier.build all_questions
    let candidate_lexicon := FrozenIdentifier.build all_candidates
    .ok {
      reference_data := reference_data
      question_lexicon := question_lexicon
      candidate_lexicon := candidate_lexicon
      random := RandState.mk0 0
      num_candidates := candidate_lexicon.size
      num_questions := question_lexicon.size }

/-- One emitted batch feed dict (reader.py lines 82-86). -/
structure Batch where
  question_ids : List Nat
  candidate_ids : List (Int × Int)
  target_values : List (ℚ × ℚ)
deriving DecidableEq

/-- Embedding of reader.py line 79: `batch_size` successive draws of
`self.random.randint(0, len(self.candidate_lexicon) - 1)`. -/
def sampleNegs (lexSize : Nat) : Nat → RandState → Except Err (List Int × RandState)
  | 0, rs => .ok ([], rs)
  | k + 1, rs =>
    match randint rs 0 ((lexSize : Int) - 1) with
    | .error e => .error e
    | .ok (v, rs1) =>
      match sampleNegs lexSize k rs1 with
      | .error e => .error e
      | .ok (vs, rs2) => .ok (v :: vs, rs2)

/-- Body of the question id comprehension (reader.py lines 73-74):
the lookup of the first question text of the instance in the question lexicon. -/
def questionIdOf (ab : AtomicBatcher) (inst : Instance) : Except Err Nat :=
  match listGet inst.questions 0 with
  | .error e => .error e
  | .ok q => ab.question_lexicon.lookup q.question

/-- Body of the answer id comprehension (reader.py lines 75-76):
the lookup of the first answer text of the first question of the instance in the candidate lexicon. -/
def answerIdOf (ab : AtomicBatcher) (inst : Instance) : Except Err Nat :=
  match listGet inst.questions 0 with
  | .error e => .error e
  | .ok q =>
    match listGet q.answers 0 with
    | .error e => .error e
    | .ok a => ab.candidate_lexicon.lookup a.text

/-- Embedding of one iteration of the generator body of `create_batches`
(reader.py lines 72-86): question id lookups, then answer id lookups,
then negative sampling, then the yielded feed dict. -/
def mkBatch (ab : AtomicBatcher) (batch : List Instance) (batch_size : Nat)
    (rs : RandState) : Except Err (Batch × RandState) :=
  match exceptMap (questionIdOf ab) batch with
  | .error e => .error e
  | .ok question_ids =>
    match exceptMap (answerIdOf ab) batch with
    | .error e => .error e
    | .ok answer_ids =>
      match sampleNegs ab.candidate_lexicon.size batch_size rs with
      | .error e => .error e
      | .ok (neg, rs1) =>
        .ok ({ question_ids := question_ids
               candidate_ids := (answer_ids.map (fun n => Int.ofNat n)).zip neg
               target_values := List.replicate batch_size ((1 : ℚ), (0 : ℚ)) }, rs1)

/-- Embedding of the loop `for b in range(0, len(instances) // batch_size)`
of `create_batches` (reader.py line 71): `n` remaining iterations starting
at window index `b`, threading the random state. -/
def runBatches (ab : AtomicBatcher) (instances : List Instance) (batch_size : Nat) :
    Nat → Nat → RandState → Except Err (List Batch × RandState)
  | _, 0, rs => .ok ([], rs)
  | b, n + 1, rs =>
    match mkBatch ab ((instances.drop (b * batch_size)).take batch_size) batch_size rs with
    | .error e => .error e
    | .ok (bt, rs1) =>
      match runBatches ab instances batch_size (b + 1) n rs1 with
      | .error e => .error e
      | .ok (rest, rs2) => .ok (bt :: rest, rs2)

/-- Embedding of reader.py line 70: the instances come from the supplied
data when present, and default to the reference data of the batcher. -/
def AtomicBatcher.sourceInstances (ab : AtomicBatcher) (data : Option Quebap) : List Instance :=
  match data with
  | none => ab.reference_data.instances
  | some d => d.instances

/-- Embedding of `AtomicBatcher.create_batches` (reader.py lines 61-86):
the full sequence of yielded batches together with the updated batcher
state, whose only changed field is the private random source.  The `test`
parameter is accepted and, as in the source, never used. -/
def AtomicBatcher.create_batches (ab : AtomicBatcher) (data : Option Quebap)
    (batch_size : Nat) (test : Bool) : Except Err (List Batch × AtomicBatcher) :=
  let instances := ab.sourceInstances data
  match runBatches ab instances batch_size 0 (instances.length / batch_size) ab.random with
  | .ok (bs, rs) => .ok (bs, { ab with random := rs })
  | .error e => .error e

/-- Embedding of `create_dot_product_scorer` (reader.py lines 101-108),
`tf.reduce_sum(tf.expand_dims(question_encodings, 1) * candidate_encodings, 2)`,
specialised to the documented shapes: the question row of each batch
element is broadcast across the candidate dimension, multiplied pointwise
with each candidate row and summed over the encoding dimension. -/
def create_dot_product_scorer (question_encodings : List (List ℚ))
    (candidate_encodings : List (List (List ℚ))) : List (List ℚ) :=
  List.zipWith
    (fun q cands => cands.map (fun c => (List.zipWith (fun a b => a * b) q c).sum))
    question_encodings candidate_encodings

/-- One concrete instance whose single question has the single answer
`Paris`. -/
def parisInstance (q : String) : Instance :=
  ⟨[⟨q, [⟨"Paris"⟩]⟩]⟩

/-- Concrete dataset of the end to end scenario: candidates `Paris` and
`Berlin`, three instances with distinct questions, each answered by
`Paris`. -/
def exData : Quebap :=
  ⟨⟨[⟨"Paris"⟩, ⟨"Berlin"⟩]⟩, [parisInstance "q1", parisInstance "q2", parisInstance "q3"]⟩

/-- Batcher state produced by `AtomicBatcher.init exData`. -/
def exAb : AtomicBatcher :=
  ⟨exData, ⟨["q1", "q2", "q3"]⟩, ⟨["Berlin", "Paris"]⟩, ⟨0, 0⟩, 2, 3⟩

/-- The single batch emitted for `exData` with batch size 2. -/
def exBatch : Batch :=
  ⟨[0, 1], [(1, 0), (1, 1)], [((1 : ℚ), (0 : ℚ)), ((1 : ℚ), (0 : ℚ))]⟩

/-- Batcher state after emitting that batch: two random draws were made. -/
def exAb2 : AtomicBatcher :=
  { exAb with random := ⟨0, 2⟩ }

/-- Dataset like `exData` but with an empty global candidate list. -/
def emptyCandData : Quebap :=
  ⟨⟨[]⟩, [parisInstance "q1", parisInstance "q2", parisInstance "q3"]⟩

/-- Batcher state produced by `AtomicBatcher.init emptyCandData`. -/
def ecAb : AtomicBatcher :=
  ⟨emptyCandData, ⟨["q1", "q2", "q3"]⟩, ⟨[]⟩, ⟨0, 0⟩, 0, 3⟩

/-- Dataset whose first instance asks a question unknown to the lexicons
of `exAb`. -/
def badData : Quebap :=
  ⟨⟨[⟨"Paris"⟩, ⟨"Berlin"⟩]⟩, [⟨[⟨"zz", [⟨"Paris"⟩]⟩]⟩, parisInstance "q2", parisInstance "q3"]⟩

lemma exceptMap_ok_length {α β : Type} (f : α → Except Err β) :
    ∀ {xs : List α} {ys : List β}, exceptMap f xs = .ok ys → ys.length = xs.length := by
  intro xs
  induction xs with
  | nil =>
    intro ys h
    simp only [exceptMap] at h
    cases h
    rfl
  | cons x xs ih =>
    intro ys h
    simp only [exceptMap] at h
    split at h
    · exact absurd h (by simp)
    · split at h
      · exact absurd h (by simp)
      · next heq =>
          cases h
          simp [ih heq]

lemma exceptMap_ok_get {α β : Type} (f : α → Except Err β) :
    ∀ {xs : List α} {ys : List β}, exceptMap f xs = .ok ys →
      ∀ {i : Nat} {y : β}, ys[i]? = some y → ∃ x, xs[i]? = some x ∧ f x = .ok y := by
  intro xs
  induction xs with
  | nil =>
    intro ys h
    simp only [exceptMap] at h
    cases h
    intro i y hy
    simp at hy
  | cons x xs ih =>
    intro ys h
    simp only [exceptMap] at h
    split at h
    · exact absurd h (by simp)
    · next y0 hfx =>
        split at h
        · exact absurd h (by simp)
        · next ys0 heq =>
            cases h
            intro i y hy
            match i with
            | 0 =>
              simp at hy
              exact ⟨x, by simp, hy ▸ hfx⟩
            | i + 1 =>
              simp at hy
              obtain ⟨x0, hx0, hfx0⟩ := ih heq hy
              exact ⟨x0, by simpa using hx0, hfx0⟩

lemma exceptMap_all_ok {α β : Type} (f : α → Except Err β) :
    ∀ {xs : List α}, (∀ x ∈ xs, ∃ y, f x = .ok y) → ∃ ys, exceptMap f xs = .ok ys := by
  intro xs
  induction xs with
  | nil => intro _; exact ⟨[], rfl⟩
  | cons x xs ih =>
    intro hall
    obtain ⟨y, hy⟩ := hall x (by simp)
    obtain ⟨ys, hys⟩ := ih (fun a ha => hall a (by simp [ha]))
    exact ⟨y :: ys, by simp only [exceptMap]; rw [hy, hys]⟩

lemma exceptMap_keyError {α β : Type} (f : α → Except Err β) :
    ∀ {xs : List α},
      (∀ x ∈ xs, (∃ y, f x = .ok y) ∨ ∃ s, f x = .error (.keyError s)) →
      (∃ x ∈ xs, ∃ s, f x = .error (.keyError s)) →
      ∃ s, exceptMap f xs = .error (.keyError s) := by
  intro xs
  induction xs with
  | nil =>
    intro _ hbad
    simp at hbad
  | cons x xs ih =>
    intro hform hbad
    rcases hform x (by simp) with ⟨y, hy⟩ | ⟨s, hs⟩
    · obtain ⟨x0, hx0, s0, hs0⟩ := hbad
      rcases List.mem_cons.mp hx0 with rfl | hx0m
      · rw [hy] at hs0
        exact absurd hs0 (by simp)
      · obtain ⟨s1, hs1⟩ := ih (fun a ha => hform a (by simp [ha])) ⟨x0, hx0m, s0, hs0⟩
        exact ⟨s1, by simp only [exceptMap]; rw [hy, hs1]⟩
    · exact ⟨s, by simp only [exceptMap]; rw [hs]⟩

lemma strIdx_not_mem {s : String} :
    ∀ {xs : List String}, s ∉ xs → strIdx s xs = none := by
  intro xs
  induction xs with
  | nil => intro _; rfl
  | cons x xs ih =>
    intro hnm
    have hx : ¬(x = s) := fun h => hnm (by simp [h])
    have hxs : s ∉ xs := fun h => hnm (by simp [h])
    simp [strIdx, if_neg hx, ih hxs]

lemma strIdx_mem {s : String} :
    ∀ {xs : List String} {i : Nat}, strIdx s xs = some i → s ∈ xs := by
  intro xs
  induction xs with
  | nil => intro i h; exact absurd h (by simp [strIdx])
  | cons x xs ih =>
    intro i h
    simp only [strIdx] at h
    split at h
    · next hx => simp [hx.symm]
    · rcases Option.map_eq_some.mp (by simpa using h) with ⟨j, hj, _⟩
      simp [ih hj]

lemma lookup_not_mem {f : FrozenIdentifier} {s : String} (h : s ∉ f.symbols) :
    f.lookup s = .error (.keyError s) := by
  simp only [FrozenIdentifier.lookup, strIdx_not_mem h]

lemma lookup_form (f : FrozenIdentifier) (s : String) :
    (∃ i, f.lookup s = .ok i) ∨ f.lookup s = .error (.keyError s) := by
  simp only [FrozenIdentifier.lookup]
  cases h : strIdx s f.symbols with
  | none => exact Or.inr rfl
  | some i => exact Or.inl ⟨i, rfl⟩

lemma randint_ok_range {rs : RandState} {a b v : Int} {rs2 : RandState}
    (h : randint rs a b = .ok (v, rs2)) : a ≤ v ∧ v ≤ b := by
  simp only [randint] at h
  split at h
  · exact absurd h (by simp)
  · next hab =>
      cases h
      have h1 : (0 : Int) ≤ (mixDraw rs : Int) % (b - a + 1) :=
        Int.emod_nonneg _ (by omega)
      have h2 : (mixDraw rs : Int) % (b - a + 1) < b - a + 1 :=
        Int.emod_lt_of_pos _ (by omega)
      omega

lemma sampleNegs_ok_length (n : Nat) :
    ∀ {k : Nat} {rs : RandState} {vs : List Int} {rs2 : RandState},
      sampleNegs n k rs = .ok (vs, rs2) → vs.length = k := by
  intro k
  induction k with
  | zero =>
    intro rs vs rs2 h
    simp only [sampleNegs] at h
    cases h
    rfl
  | succ k ih =>
    intro rs vs rs2 h
    simp only [sampleNegs] at h
    split at h
    · exact absurd h (by simp)
    · split at h
      · exact absurd h (by simp)
      · next heq =>
          cases h
          simp [ih heq]

lemma sampleNegs_ok_range (n : Nat) :
    ∀ {k : Nat} {rs : RandState} {vs : List Int} {rs2 : RandState},
      sampleNegs n k rs = .ok (vs, rs2) → ∀ v ∈ vs, 0 ≤ v ∧ v < (n : Int) := by
  intro k
  induction k with
  | zero =>
    intro rs vs rs2 h
    simp only [sampleNegs] at h
    cases h
    intro v hv
    simp at hv
  | succ k ih =>
    intro rs vs rs2 h
    simp only [sampleNegs] at h
    split at h
    · exact absurd h (by simp)
    · next v0 rs1 hr =>
        split at h
        · exact absurd h (by simp)
        · next heq =>
            cases h
            intro v hv
            rcases List.mem_cons.mp hv with rfl | hvm
            · have := randint_ok_range hr
              omega
            · exact ih heq v hvm

lemma zip_getElem {α β : Type} :
    ∀ {as : List α} {bs : List β} {i : Nat} {p : α × β},
      (as.zip bs)[i]? = some p → as[i]? = some p.1 ∧ bs[i]? = some p.2 := by
  intro as
  induction as with
  | nil => intro bs i p h; simp at h
  | cons a as ih =>
    intro bs i p h
    cases bs with
    | nil => simp at h
    | cons b bs =>
      match i with
      | 0 =>
        simp at h
        simp [← h]
      | i + 1 =>
        simp only [List.zip_cons_cons, List.getElem?_cons_succ] at h
        have := ih h
        simpa using this

lemma mkBatch_ok_inv {ab : AtomicBatcher} {w : List Instance} {B : Nat} {rs : RandState}
    {bt : Batch} {rs1 : RandState} (h : mkBatch ab w B rs = .ok (bt, rs1)) :
    ∃ qids aids negs,
      exceptMap (questionIdOf ab) w = .ok qids ∧
      exceptMap (answerIdOf ab) w = .ok aids ∧
      sampleNegs ab.candidate_lexicon.size B rs = .ok (negs, rs1) ∧
      bt = ⟨qids, (aids.map (fun n => Int.ofNat n)).zip negs,
            List.replicate B ((1 : ℚ), (0 : ℚ))⟩ := by
  simp only [mkBatch] at h
  split at h
  · exact absurd h (by simp)
  · next qids hq =>
      split at h
      · exact absurd h (by simp)
      · next aids ha =>
          split at h
          · exact absurd h (by simp)
          · next negs rs0 hn =>
              cases h
              exact ⟨qids, aids, negs, hq, ha, hn, rfl⟩

lemma mkBatch_ok_shape {ab : AtomicBatcher} {w : List Instance} {B : Nat}
    {rs : RandState} {bt : Batch} {rs1 : RandState}
    (hw : w.length = B) (h : mkBatch ab w B rs = .ok (bt, rs1)) :
    bt.question_ids.length = B ∧ bt.candidate_ids.length = B ∧
      bt.target_values.length = B := by
  obtain ⟨qids, aids, negs, hq, ha, hn, rfl⟩ := mkBatch_ok_inv h
  refine ⟨?_, ?_, ?_⟩
  · simpa [hw] using exceptMap_ok_length _ hq
  · show ((aids.map (fun n => Int.ofNat n)).zip negs).length = B
    rw [List.length_zip, List.length_map, exceptMap_ok_length _ ha, hw,
      sampleNegs_ok_length _ hn]
    exact Nat.min_self B
  · simp

lemma mkBatch_error_q {ab : AtomicBatcher} {w : List Instance} {B : Nat}
    {rs : RandState} {e : Err} (h : exceptMap (questionIdOf ab) w = .error e) :
    mkBatch ab w B rs = .error e := by
  simp only [mkBatch, h]

lemma mkBatch_error_a {ab : AtomicBatcher} {w : List Instance} {B : Nat}
    {rs : RandState} {qids : List Nat} {e : Err}
    (hq : exceptMap (questionIdOf ab) w = .ok qids)
    (h : exceptMap (answerIdOf ab) w = .error e) :
    mkBatch ab w B rs = .error e := by
  simp only [mkBatch, hq, h]

lemma questionIdOf_form (ab : AtomicBatcher) (inst : Instance)
    (hwf : ∃ q, inst.questions[0]? = some q) :
    (∃ y, questionIdOf ab inst = .ok y) ∨
      ∃ s, questionIdOf ab inst = .error (.keyError s) := by
  obtain ⟨q, hq⟩ := hwf
  simp only [questionIdOf, listGet, hq]
  rcases lookup_form ab.question_lexicon q.question with ⟨i, hi⟩ | he
  · exact Or.inl ⟨i, hi⟩
  · exact Or.inr ⟨q.question, he⟩

lemma answerIdOf_form (ab : AtomicBatcher) (inst : Instance)
    (hwf : ∃ q, inst.questions[0]? = some q ∧ ∃ a, q.answers[0]? = some a) :
    (∃ y, answerIdOf ab inst = .ok y) ∨
      ∃ s, answerIdOf ab inst = .error (.keyError s) := by
  obtain ⟨q, hq, a, ha⟩ := hwf
  simp only [answerIdOf, listGet, hq, ha]
  rcases lookup_form ab.candidate_lexicon a.text with ⟨i, hi⟩ | he
  · exact Or.inl ⟨i, hi⟩
  · exact Or.inr ⟨a.text, he⟩

lemma questionIdOf_keyError {ab : AtomicBatcher} {inst : Instance} {q : Question}
    (hq : inst.questions[0]? = some q)
    (hnm : q.question ∉ ab.question_lexicon.symbols) :
    questionIdOf ab inst = .error (.keyError q.question) := by
  simp only [questionIdOf, listGet, hq]
  exact lookup_not_mem hnm

lemma answerIdOf_keyError {ab : AtomicBatcher} {inst : Instance} {q : Question}
    {a : Answer} (hq : inst.questions[0]? = some q) (ha : q.answers[0]? = some a)
    (hnm : a.text ∉ ab.candidate_lexicon.symbols) :
    answerIdOf ab inst = .error (.keyError a.text) := by
  simp only [answerIdOf, listGet, hq, ha]
  exact lookup_not_mem hnm

lemma answerIdOf_ok_inv {ab : AtomicBatcher} {inst : Instance} {k : Nat}
    (h : answerIdOf ab inst = .ok k) :
    ∃ q a, inst.questions[0]? = some q ∧ q.answers[0]? = some a ∧
      ab.candidate_lexicon.lookup a.text = .ok k := by
  cases hq : inst.questions[0]? with
  | none => simp [answerIdOf, listGet, hq] at h
  | some q =>
    cases ha : q.answers[0]? with
    | none => simp [answerIdOf, listGet, hq, ha] at h
    | some a =>
      simp only [answerIdOf, listGet, hq, ha] at h
      exact ⟨q, a, rfl, ha, h⟩

lemma runBatches_succ_ok {ab : AtomicBatcher} {instances : List Instance}
    {B b n : Nat} {rs : RandState} {bs : List Batch} {rs2 : RandState}
    (h : runBatches ab instances B b (n + 1) rs = .ok (bs, rs2)) :
    ∃ bt rs1 rest,
      mkBatch ab ((instances.drop (b * B)).take B) B rs = .ok (bt, rs1) ∧
      runBatches ab instances B (b + 1) n rs1 = .ok (rest, rs2) ∧
      bs = bt :: rest := by
  simp only [runBatches] at h
  split at h
  · exact absurd h (by simp)
  · next bt rs1 hmk =>
      split at h
      · exact absurd h (by simp)
      · next rest rs3 hrest =>
          cases h
          exact ⟨bt, rs1, rest, hmk, hrest, rfl⟩

lemma runBatches_first_error {ab : AtomicBatcher} {instances : List Instance}
    {B b n : Nat} {rs : RandState} {e : Err}
    (h : mkBatch ab ((instances.drop (b * B)).take B) B rs = .error e) :
    runBatches ab instances B b (n + 1) rs = .error e := by
  simp only [runBatches, h]

lemma runBatches_ok_get {ab : AtomicBatcher} {instances : List Instance} {B : Nat} :
    ∀ {n b : Nat} {rs : RandState} {bs : List Batch} {rs2 : RandState},
      runBatches ab instances B b n rs = .ok (bs, rs2) →
      ∀ {i : Nat} {bt : Batch}, bs[i]? = some bt →
        ∃ rs0 rs1, mkBatch ab ((instances.drop ((b + i) * B)).take B) B rs0 = .ok (bt, rs1) := by
  intro n
  induction n with
  | zero =>
    intro b rs bs rs2 h i bt hi
    simp only [runBatches] at h
    cases h
    simp at hi
  | succ n ih =>
    intro b rs bs rs2 h i bt hi
    obtain ⟨bt0, rs1, rest, hmk, hrest, rfl⟩ := runBatches_succ_ok h
    match i with
    | 0 =>
      simp at hi
      subst hi
      exact ⟨rs, rs1, by simpa using hmk⟩
    | i + 1 =>
      simp only [List.getElem?_cons_succ] at hi
      obtain ⟨rs0, rs1b, hmk2⟩ := ih hrest hi
      refine ⟨rs0, rs1b, ?_⟩
      have harith : b + 1 + i = b + (i + 1) := by omega
      rw [harith] at hmk2
      exact hmk2

lemma runBatches_ok_shape {ab : AtomicBatcher} {instances : List Instance} {B : Nat} :
    ∀ {n b : Nat} {rs : RandState} {bs : List Batch} {rs2 : RandState},
      (b + n) * B ≤ instances.length →
      runBatches ab instances B b n rs = .ok (bs, rs2) →
      bs.length = n ∧ ∀ bt ∈ bs,
        bt.question_ids.length = B ∧ bt.candidate_ids.length = B ∧
          bt.target_values.length = B := by
  intro n
  induction n with
  | zero =>
    intro b rs bs rs2 _ h
    simp only [runBatches] at h
    cases h
    simp
  | succ n ih =>
    intro b rs bs rs2 hle h
    have hexp : (b + (n + 1)) * B = b * B + (n * B + B) := by ring
    rw [hexp] at hle
    obtain ⟨bt0, rs1, rest, hmk, hrest, rfl⟩ := runBatches_succ_ok h
    have hwlen : ((instances.drop (b * B)).take B).length = B := by
      simp only [List.length_take, List.length_drop]
      omega
    have hshape0 := mkBatch_ok_shape hwlen hmk
    have harith : (b + 1 + n) * B = b * B + (n * B + B) := by ring
    have hih := ih (by rw [harith]; exact hle) hrest
    refine ⟨by simp [hih.1], ?_⟩
    intro bt hbt
    rcases List.mem_cons.mp hbt with rfl | hbtm
    · exact hshape0
    · exact hih.2 bt hbtm

lemma runBatches_take {ab : AtomicBatcher} {instances : List Instance} {B m : Nat} :
    ∀ {n b : Nat} {rs : RandState}, (b + n) * B ≤ m →
      runBatches ab (instances.take m) B b n rs = runBatches ab instances B b n rs := by
  intro n
  induction n with
  | zero => intro b rs _; rfl
  | succ n ih =>
    intro b rs hle
    have hexp : (b + (n + 1)) * B = b * B + (n * B + B) := by ring
    rw [hexp] at hle
    have hw : ((instances.take m).drop (b * B)).take B = (instances.drop (b * B)).take B := by
      rw [List.drop_take, List.take_take]
      congr 1
      omega
    have hih : ∀ rs1 : RandState,
        runBatches ab (instances.take m) B (b + 1) n rs1 =
          runBatches ab instances B (b + 1) n rs1 := by
      intro rs1
      exact ih (le_of_eq_of_le (by ring) hle)
    simp only [runBatches, hw, hih]

lemma init_ok_inv {rd : Quebap} {ab : AtomicBatcher}
    (h : AtomicBatcher.init rd = .ok ab) :
    ab.reference_data = rd ∧ ab.random = RandState.mk0 0 ∧
      ab.num_candidates = ab.candidate_lexicon.size ∧
      ab.num_questions = ab.question_lexicon.size := by
  simp only [AtomicBatcher.init] at h
  split at h
  · exact absurd h (by simp)
  · cases h
    exact ⟨rfl, rfl, rfl, rfl⟩

lemma create_batches_ok_inv {ab : AtomicBatcher} {data : Option Quebap}
    {B : Nat} {t : Bool} {bs : List Batch} {ab2 : AtomicBatcher}
    (h : ab.create_batches data B t = .ok (bs, ab2)) :
    ∃ rs2, runBatches ab (ab.sourceInstances data) B 0
        ((ab.sourceInstances data).length / B) ab.random = .ok (bs, rs2) ∧
      ab2 = { ab with random := rs2 } := by
  simp only [AtomicBatcher.create_batches] at h
  split at h
  · next bs0 rs0 heq =>
      cases h
      exact ⟨rs0, heq, rfl⟩
  · exact absurd h (by simp)

lemma create_batches_error_of {ab : AtomicBatcher} {data : Option Quebap}
    {B : Nat} {t : Bool} {e : Err}
    (h : runBatches ab (ab.sourceInstances data) B 0
        ((ab.sourceInstances data).length / B) ab.random = .error e) :
    ab.create_batches data B t = .error e := by
  simp only [AtomicBatcher.create_batches, h]

lemma zipWith_mul_sum :
    ∀ {q c : List ℚ} {n : Nat}, q.length = n → c.length = n →
      (List.zipWith (fun a b => a * b) q c).sum =
        ∑ i ∈ Finset.range n, q.getD i 0 * c.getD i 0 := by
  intro q
  induction q with
  | nil =>
    intro c n hq hc
    have hn : n = 0 := by simpa using hq.symm
    subst hn
    simp
  | cons a as ih =>
    intro c n hq hc
    cases c with
    | nil =>
      rw [← hc] at hq
      simp at hq
    | cons b bs =>
      cases n with
      | zero => simp at hq
      | succ m =>
        have has : as.length = m := by simpa using hq
        have hbs : bs.length = m := by simpa using hc
        rw [Finset.sum_range_succ']
        simp only [List.getD_cons_succ, List.getD_cons_zero, List.zipWith_cons_cons,
          List.sum_cons]
        rw [ih has hbs]
        ring

lemma firstWindow_keyError (ab : AtomicBatcher) (d : Quebap) (B : Nat) (t : Bool)
    (hB : 0 < B) (hlen : B ≤ d.instances.length)
    (hwf : ∀ inst ∈ d.instances.take B,
      ∃ q, inst.questions[0]? = some q ∧ ∃ a, q.answers[0]? = some a)
    (hbad : ∃ inst ∈ d.instances.take B, ∃ q, inst.questions[0]? = some q ∧
      (q.question ∉ ab.question_lexicon.symbols ∨
        ∃ a, q.answers[0]? = some a ∧ a.text ∉ ab.candidate_lexicon.symbols)) :
    ∃ s, ab.create_batches (some d) B t = .error (.keyError s) := by
  have hn1 : 1 ≤ d.instances.length / B := (Nat.one_le_div_iff hB).mpr hlen
  obtain ⟨m, hm⟩ : ∃ m, d.instances.length / B = m + 1 :=
    ⟨d.instances.length / B - 1, by omega⟩
  have hw0 : (d.instances.drop (0 * B)).take B = d.instances.take B := by
    simp
  have hform_q : ∀ inst ∈ d.instances.take B,
      (∃ y, questionIdOf ab inst = .ok y) ∨
        ∃ s, questionIdOf ab inst = .error (.keyError s) := by
    intro inst hinst
    obtain ⟨q, hq, -⟩ := hwf inst hinst
    exact questionIdOf_form ab inst ⟨q, hq⟩
  by_cases hq_all : ∀ inst ∈ d.instances.take B, ∃ y, questionIdOf ab inst = .ok y
  · obtain ⟨qids, hqids⟩ := exceptMap_all_ok _ hq_all
    obtain ⟨inst, hinst, q, hq0, hbadi⟩ := hbad
    have hbad_a : ∃ s, answerIdOf ab inst = .error (.keyError s) := by
      rcases hbadi with hqm | ⟨a, ha0, ham⟩
      · obtain ⟨y, hy⟩ := hq_all inst hinst
        rw [questionIdOf_keyError hq0 hqm] at hy
        exact absurd hy (by simp)
      · exact ⟨a.text, answerIdOf_keyError hq0 ha0 ham⟩
    have hform_a : ∀ inst2 ∈ d.instances.take B,
        (∃ y, answerIdOf ab inst2 = .ok y) ∨
          ∃ s, answerIdOf ab inst2 = .error (.keyError s) := by
      intro inst2 hinst2
      exact answerIdOf_form ab inst2 (hwf inst2 hinst2)
    obtain ⟨s, hs⟩ := exceptMap_keyError _ hform_a ⟨inst, hinst, hbad_a⟩
    refine ⟨s, ?_⟩
    apply create_batches_error_of
    show runBatches ab d.instances B 0 (d.instances.length / B) ab.random = _
    rw [hm]
    apply runBatches_first_error
    rw [hw0]
    exact mkBatch_error_a hqids hs
  · push_neg at hq_all
    obtain ⟨inst, hinst, hfail⟩ := hq_all
    have hbad_q : ∃ s, questionIdOf ab inst = .error (.keyError s) := by
      rcases hform_q inst hinst with ⟨y, hy⟩ | hk
      · exact absurd hy (hfail y)
      · exact hk
    obtain ⟨s, hs⟩ := exceptMap_keyError _ hform_q ⟨inst, hinst, hbad_q⟩
    refine ⟨s, ?_⟩
    apply create_batches_error_of
    show runBatches ab d.instances B 0 (d.instances.length / B) ab.random = _
    rw [hm]
    apply runBatches_first_error
    rw [hw0]
    exact mkBatch_error_q hs


/-- C1: for every dataset whose instance list has length `L` and every
positive `batch_size B`, `create_batches` yields exactly `L / B` batches;
in each yielded batch the question_ids, candidate_ids and target_values
sequences each have exactly `B` elements, and the final `L % B` instances
of the dataset never appear in any batch: the output is unchanged when
the dataset is truncated to its first `B * (L / B)` instances. -/
theorem c1_batch_shape (ab : AtomicBatcher) (d : Quebap) (B : Nat) (t : Bool)
    (hB : 0 < B) :
    ab.create_batches
        (some ⟨d.globals, d.instances.take (B * (d.instances.length / B))⟩) B t
      = ab.create_batches (some d) B t ∧
    ∀ bs ab2, ab.create_batches (some d) B t = .ok (bs, ab2) →
      bs.length = d.instances.length / B ∧
      ∀ bt ∈ bs, bt.question_ids.length = B ∧ bt.candidate_ids.length = B ∧
        bt.target_values.length = B := by
  constructor
  · have hm : B * (d.instances.length / B) ≤ d.instances.length := by
      rw [Nat.mul_comm]
      exact Nat.div_mul_le_self d.instances.length B
    have hlen : (d.instances.take (B * (d.instances.length / B))).length
        = B * (d.instances.length / B) := by
      rw [List.length_take]
      omega
    have hdiv : B * (d.instances.length / B) / B = d.instances.length / B :=
      Nat.mul_div_cancel_left _ hB
    have htk := @runBatches_take ab d.instances B (B * (d.instances.length / B))
      (d.instances.length / B) 0 ab.random (le_of_eq (by ring))
    simp only [AtomicBatcher.create_batches, AtomicBatcher.sourceInstances]
    rw [hlen, hdiv, htk]
  · intro bs ab2 h
    obtain ⟨rs2, hrun, _⟩ := create_batches_ok_inv h
    have hle : (0 + d.instances.length / B) * B ≤ d.instances.length := by
      rw [Nat.zero_add]
      exact Nat.div_mul_le_self d.instances.length B
    exact runBatches_ok_shape hle hrun

/-- C1 witness: the shape property instantiated at the concrete scenario
dataset with batch size 2. -/
theorem c1_batch_shape_witness :
    exAb.create_batches
        (some ⟨exData.globals, exData.instances.take (2 * (exData.instances.length / 2))⟩)
        2 false
      = exAb.create_batches (some exData) 2 false ∧
    ∀ bs ab2, exAb.create_batches (some exData) 2 false = .ok (bs, ab2) →
      bs.length = exData.instances.length / 2 ∧
      ∀ bt ∈ bs, bt.question_ids.length = 2 ∧ bt.candidate_ids.length = 2 ∧
        bt.target_values.length = 2 :=
  c1_batch_shape exAb exData 2 false (by decide)

/-- C2: for every batch yielded by `create_batches` and every element of
that batch, the target_values entry equals the pair `(1.0, 0.0)`, and the
first component of the candidate_ids pair (slot 0) equals the candidate
lexicon id of the first recorded correct answer text of that instance
`instance.questions[0].answers[0].text`. -/
theorem c2_positive_slot_and_targets (ab : AtomicBatcher) (d : Quebap) (B : Nat)
    (t : Bool) (bs : List Batch) (ab2 : AtomicBatcher)
    (h : ab.create_batches (some d) B t = .ok (bs, ab2)) :
    ∀ i bt, bs[i]? = some bt →
      (∀ tv ∈ bt.target_values, tv = ((1 : ℚ), (0 : ℚ))) ∧
      ∀ j p, bt.candidate_ids[j]? = some p →
        ∃ inst q a k, d.instances[i * B + j]? = some inst ∧
          inst.questions[0]? = some q ∧ q.answers[0]? = some a ∧
          ab.candidate_lexicon.lookup a.text = .ok k ∧ p.1 = Int.ofNat k := by
  intro i bt hi
  obtain ⟨rs2, hrun, _⟩ := create_batches_ok_inv h
  obtain ⟨rs0, rs1, hmk⟩ := runBatches_ok_get hrun hi
  obtain ⟨qids, aids, negs, hq, ha, hn, rfl⟩ := mkBatch_ok_inv hmk
  constructor
  · intro tv htv
    exact List.eq_of_mem_replicate htv
  · intro j p hp
    obtain ⟨h1, h2⟩ := zip_getElem hp
    rw [List.getElem?_map] at h1
    obtain ⟨k, hk, hkp⟩ := Option.map_eq_some.mp h1
    obtain ⟨inst, hinst, hfo⟩ := exceptMap_ok_get _ ha hk
    obtain ⟨q, a, hq0, ha0, hlk⟩ := answerIdOf_ok_inv hfo
    have hj : j < B := by
      have h4 := (List.getElem?_eq_some.mp hinst).1
      rw [List.length_take] at h4
      omega
    refine ⟨inst, q, a, k, ?_, hq0, ha0, hlk, hkp.symm⟩
    have h3 := hinst
    rw [List.getElem?_take_of_lt hj, List.getElem?_drop] at h3
    simpa using h3

/-- C2 witness: the label invariant instantiated at the concrete scenario
dataset with batch size 2. -/
theorem c2_positive_slot_and_targets_witness :
    (∀ tv ∈ exBatch.target_values, tv = ((1 : ℚ), (0 : ℚ))) ∧
    ∀ j p, exBatch.candidate_ids[j]? = some p →
      ∃ inst q a k, exData.instances[0 * 2 + j]? = some inst ∧
        inst.questions[0]? = some q ∧ q.answers[0]? = some a ∧
        exAb.candidate_lexicon.lookup a.text = .ok k ∧ p.1 = Int.ofNat k :=
  c2_positive_slot_and_targets exAb exData 2 false [exBatch] exAb2 (by decide)
    0 exBatch (by decide)

/-- C3: for the concrete dataset with the two global candidates `Paris`
and `Berlin` and three instances each asking a distinct question whose
first answer text is `Paris`, calling `create_batches` with batch size 2
produces exactly one batch of two elements (the third instance is
dropped); in each element the candidate_ids slot 0 equals the candidate
lexicon id of `Paris`, and the target_values of both elements equal
`(1.0, 0.0)`. -/
theorem c3_end_to_end_scenario :
    AtomicBatcher.init exData = .ok exAb ∧
    exAb.create_batches (some exData) 2 false = .ok ([exBatch], exAb2) ∧
    exBatch.question_ids.length = 2 ∧
    exBatch.candidate_ids.length = 2 ∧
    exBatch.target_values = [((1 : ℚ), (0 : ℚ)), ((1 : ℚ), (0 : ℚ))] ∧
    exAb.candidate_lexicon.lookup "Paris" = .ok 1 ∧
    ∀ p ∈ exBatch.candidate_ids, p.1 = Int.ofNat 1 := by decide

/-- C4: for every batcher built by `AtomicBatcher.init` with at least one
candidate and every batch yielded by `create_batches`, every sampled
negative candidate id (the second component of each candidate_ids pair)
lies in the integer range `[0, num_candidates)`. -/
theorem c4_negative_range (rd : Quebap) (ab : AtomicBatcher) (data : Option Quebap)
    (B : Nat) (t : Bool) (bs : List Batch) (ab2 : AtomicBatcher)
    (hinit : AtomicBatcher.init rd = .ok ab) (hnc : 1 ≤ ab.num_candidates)
    (h : ab.create_batches data B t = .ok (bs, ab2)) :
    ∀ bt ∈ bs, ∀ p ∈ bt.candidate_ids,
      0 ≤ p.2 ∧ p.2 < (ab.num_candidates : Int) := by
  intro bt hbt p hp
  obtain ⟨rs2, hrun, _⟩ := create_batches_ok_inv h
  obtain ⟨i, hi⟩ := List.mem_iff_getElem?.mp hbt
  obtain ⟨rs0, rs1, hmk⟩ := runBatches_ok_get hrun hi
  obtain ⟨qids, aids, negs, hq, ha, hn, rfl⟩ := mkBatch_ok_inv hmk
  obtain ⟨pa, pb⟩ := p
  have hp2 : pb ∈ negs := (List.of_mem_zip hp).2
  have hrange := sampleNegs_ok_range _ hn pb hp2
  have hsz := (init_ok_inv hinit).2.2.1
  rw [hsz]
  exact hrange

/-- C4 witness: the negative id range instantiated at the concrete
scenario dataset with batch size 2. -/
theorem c4_negative_range_witness :
    (0 ≤ (((1 : Int), (0 : Int)) : Int × Int).2 ∧
      (((1 : Int), (0 : Int)) : Int × Int).2 < (exAb.num_candidates : Int)) ∧
    (0 ≤ (((1 : Int), (1 : Int)) : Int × Int).2 ∧
      (((1 : Int), (1 : Int)) : Int × Int).2 < (exAb.num_candidates : Int)) :=
  ⟨c4_negative_range exData exAb (some exData) 2 false [exBatch] exAb2
      (by decide) (by decide) (by decide) exBatch (by decide) (1, 0) (by decide),
    c4_negative_range exData exAb (some exData) 2 false [exBatch] exAb2
      (by decide) (by decide) (by decide) exBatch (by decide) (1, 1) (by decide)⟩

/-- C5: negative sampling is reproducible: two batchers constructed by
`AtomicBatcher.init` from equal reference data carry the random source
seeded with the fixed constant 0, are equal, and `create_batches` called
on each with equal data and batch size arguments yields identical batch
sequences. -/
theorem c5_reproducible (rd1 rd2 : Quebap) (ab1 ab2 : AtomicBatcher)
    (data : Option Quebap) (B : Nat) (t : Bool) (hrd : rd1 = rd2)
    (h1 : AtomicBatcher.init rd1 = .ok ab1)
    (h2 : AtomicBatcher.init rd2 = .ok ab2) :
    ab1.random = RandState.mk0 0 ∧ ab1 = ab2 ∧
      ab1.create_batches data B t = ab2.create_batches data B t := by
  subst hrd
  rw [h1] at h2
  cases h2
  exact ⟨(init_ok_inv h1).2.1, rfl, rfl⟩

/-- C5 witness: reproducibility instantiated at the concrete scenario
dataset. -/
theorem c5_reproducible_witness :
    exAb.random = RandState.mk0 0 ∧ exAb = exAb ∧
      exAb.create_batches (some exData) 2 false
        = exAb.create_batches (some exData) 2 false :=
  c5_reproducible exData exData exAb exAb (some exData) 2 false rfl
    (by decide) (by decide)

/-- C6: for every batcher state, data and batch size, `create_batches`
with `test = true` yields exactly the same result as with `test = false`:
the flag has no effect on behavior. -/
theorem c6_test_flag_no_effect (ab : AtomicBatcher) (data : Option Quebap)
    (B : Nat) :
    ab.create_batches data B true = ab.create_batches data B false := rfl

/-- C7: if the data passed to `create_batches` contains, within the first
full window of `batch_size` well formed instances, a question text absent
from the question lexicon or a first answer text absent from the
candidate lexicon, then producing that batch fails with the lookup key
error, propagated to the caller; no default id is silently substituted. -/
theorem c7_unknown_symbol_failure (ab : AtomicBatcher) (d : Quebap) (B : Nat)
    (t : Bool) (hB : 0 < B) (hlen : B ≤ d.instances.length)
    (hwf : ∀ inst ∈ d.instances.take B,
      ∃ q, inst.questions[0]? = some q ∧ ∃ a, q.answers[0]? = some a)
    (hbad : ∃ inst ∈ d.instances.take B, ∃ q, inst.questions[0]? = some q ∧
      (q.question ∉ ab.question_lexicon.symbols ∨
        ∃ a, q.answers[0]? = some a ∧ a.text ∉ ab.candidate_lexicon.symbols)) :
    ∃ s, ab.create_batches (some d) B t = .error (.keyError s) :=
  firstWindow_keyError ab d B t hB hlen hwf hbad

/-- C7 witness: an unknown question text in the first window of `badData`
makes `create_batches` fail with a key error. -/
theorem c7_unknown_symbol_failure_witness :
    ∃ s, exAb.create_batches (some badData) 2 false = .error (.keyError s) :=
  c7_unknown_symbol_failure exAb badData 2 false (by decide) (by decide)
    (by
      intro inst hinst
      have hcase : inst = ⟨[⟨"zz", [⟨"Paris"⟩]⟩]⟩ ∨ inst = parisInstance "q2" := by
        simpa [badData, parisInstance] using hinst
      rcases hcase with rfl | rfl
      · exact ⟨_, rfl, _, rfl⟩
      · exact ⟨_, rfl, _, rfl⟩)
    ⟨⟨[⟨"zz", [⟨"Paris"⟩]⟩]⟩, by decide, ⟨"zz", [⟨"Paris"⟩]⟩, rfl, Or.inl (by decide)⟩

/-- C8: for every batch of question encodings of shape
`[batch_size, enc_dim]` and candidate encodings of shape
`[batch_size, num_candidates, enc_dim]`, the scorer returns a matrix of
shape `[batch_size, num_candidates]` whose entry at `(b, c)` is the inner
product over the encoding dimension of the question vector of `b` and the
candidate vector of `(b, c)`: the question vector is broadcast across the
candidate dimension and no normalization is applied. -/
theorem c8_dot_product_scorer (Q : List (List ℚ)) (C : List (List (List ℚ)))
    (bsz nc ed : Nat) (hQ : Q.length = bsz) (hQr : ∀ q ∈ Q, q.length = ed)
    (hC : C.length = bsz)
    (hCs : ∀ cs ∈ C, cs.length = nc ∧ ∀ c ∈ cs, c.length = ed) :
    (create_dot_product_scorer Q C).length = bsz ∧
    ∀ (b : Nat) (q : List ℚ) (cs : List (List ℚ)), Q[b]? = some q → C[b]? = some cs →
      ∃ row : List ℚ, (create_dot_product_scorer Q C)[b]? = some row ∧ row.length = nc ∧
        ∀ (c : Nat) (crow : List ℚ), cs[c]? = some crow →
          row[c]? = some (∑ i ∈ Finset.range ed, q.getD i 0 * crow.getD i 0) := by
  constructor
  · simp [create_dot_product_scorer, List.length_zipWith, hQ, hC]
  · intro b q cs hq hcs
    have hmemC : cs ∈ C := List.getElem?_mem hcs
    refine ⟨cs.map (fun c => (List.zipWith (fun a b => a * b) q c).sum), ?_, ?_, ?_⟩
    · exact (List.getElem?_zipWith_eq_some).mpr ⟨q, cs, hq, hcs, rfl⟩
    · rw [List.length_map, (hCs cs hmemC).1]
    · intro c crow hcrow
      rw [List.getElem?_map, hcrow]
      simp only [Option.map_some']
      congr 1
      exact zipWith_mul_sum (hQr q (List.getElem?_mem hq))
        ((hCs cs hmemC).2 crow (List.getElem?_mem hcrow))

/-- C8 witness: the scorer property instantiated at a concrete one element
batch with two candidates in encoding dimension two. -/
theorem c8_dot_product_scorer_witness :
    (create_dot_product_scorer [[(1 : ℚ), 2]] [[[(3 : ℚ), 4], [5, 6]]]).length = 1 ∧
    ∀ (b : Nat) (q : List ℚ) (cs : List (List ℚ)),
      ([[(1 : ℚ), 2]] : List (List ℚ))[b]? = some q →
      ([[[(3 : ℚ), 4], [5, 6]]] : List (List (List ℚ)))[b]? = some cs →
      ∃ row : List ℚ, (create_dot_product_scorer [[(1 : ℚ), 2]] [[[(3 : ℚ), 4], [5, 6]]])[b]?
          = some row ∧ row.length = 2 ∧
        ∀ (c : Nat) (crow : List ℚ), cs[c]? = some crow →
          row[c]? = some (∑ i ∈ Finset.range 2, q.getD i 0 * crow.getD i 0) :=
  c8_dot_product_scorer [[(1 : ℚ), 2]] [[[(3 : ℚ), 4], [5, 6]]] 1 2 2
    (by decide) (by decide) (by decide) (by decide)

/-- C9 counterexample: with an empty candidate lexicon and three full
instances, `create_batches` with batch size 2 fails with the key error of
the answer id lexicon lookup, not with the value error of an undefined
`randint(0, -1)` call: the answer lookup at reader.py line 75 raises
before the negative sampling at line 79 is reached. -/
theorem c9_counterexample :
    AtomicBatcher.init emptyCandData = .ok ecAb ∧
    ecAb.num_candidates = 0 ∧
    2 ≤ emptyCandData.instances.length ∧
    ecAb.create_batches (some emptyCandData) 2 false
      = .error (.keyError "Paris") ∧
    ecAb.create_batches (some emptyCandData) 2 false
      ≠ .error .valueError := by decide

/-- C9 (amended): if the candidate lexicon is empty and the data contains
at least `batch_size` well formed instances, `create_batches` fails while
producing its first batch, with the key error of the answer id lexicon
lookup (raised before the negative sampling call is reached), rather than
yielding any batch; hence `num_candidates` at least 1 is an unstated
precondition for successful batch generation. -/
theorem c9_empty_lexicon_failure (rd : Quebap) (ab : AtomicBatcher) (d : Quebap)
    (B : Nat) (t : Bool) (hinit : AtomicBatcher.init rd = .ok ab)
    (hnc : ab.num_candidates = 0) (hB : 0 < B) (hlen : B ≤ d.instances.length)
    (hwf : ∀ inst ∈ d.instances.take B,
      ∃ q, inst.questions[0]? = some q ∧ ∃ a, q.answers[0]? = some a) :
    ∃ s, ab.create_batches (some d) B t = .error (.keyError s) := by
  have hsz := (init_ok_inv hinit).2.2.1
  rw [hnc] at hsz
  have hsyms : ab.candidate_lexicon.symbols = [] := by
    have h2 : ab.candidate_lexicon.symbols.length = 0 := by
      simpa [FrozenIdentifier.size] using hsz.symm
    exact List.eq_nil_of_length_eq_zero h2
  have hpos : 0 < (d.instances.take B).length := by
    rw [List.length_take]
    omega
  obtain ⟨inst, hinst⟩ := List.length_pos_iff_exists_mem.mp hpos
  obtain ⟨q, hq, a, ha⟩ := hwf inst hinst
  apply firstWindow_keyError ab d B t hB hlen hwf
  exact ⟨inst, hinst, q, hq,
    Or.inr ⟨a, ha, by rw [hsyms]; exact List.not_mem_nil a.text⟩⟩

/-- C9 witness: the amended failure property instantiated at the concrete
dataset with no global candidates. -/
theorem c9_empty_lexicon_failure_witness :
    ∃ s, ecAb.create_batches (some emptyCandData) 2 false
      = .error (.keyError s) :=
  c9_empty_lexicon_failure emptyCandData ecAb emptyCandData 2 false
    (by decide) (by decide) (by decide) (by decide)
    (by
      intro inst hinst
      have hcase : inst = parisInstance "q1" ∨ inst = parisInstance "q2" := by
        simpa [emptyCandData, parisInstance] using hinst
      rcases hcase with rfl | rfl
      · exact ⟨_, rfl, _, rfl⟩
      · exact ⟨_, rfl, _, rfl⟩)

/-- C10: generating any number of batches leaves all batcher state other
than the private random source unchanged: reference_data,
question_lexicon, candidate_lexicon, num_candidates and num_questions are
identical in the batcher state returned by `create_batches`. -/
theorem c10_frame (ab : AtomicBatcher) (data : Option Quebap) (B : Nat)
    (t : Bool) (bs : List Batch) (ab2 : AtomicBatcher)
    (h : ab.create_batches data B t = .ok (bs, ab2)) :
    ab2.reference_data = ab.reference_data ∧
    ab2.question_lexicon = ab.question_lexicon ∧
    ab2.candidate_lexicon = ab.candidate_lexicon ∧
    ab2.num_candidates = ab.num_candidates ∧
    ab2.num_questions = ab.num_questions := by
  obtain ⟨rs2, _, rfl⟩ := create_batches_ok_inv h
  exact ⟨rfl, rfl, rfl, rfl, rfl⟩

/-- C10 witness: the frame property instantiated at the concrete scenario
dataset with batch size 2. -/
theorem c10_frame_witness :
    exAb2.reference_data = exAb.reference_data ∧
    exAb2.question_lexicon = exAb.question_lexicon ∧
    exAb2.candidate_lexicon = exAb.candidate_lexicon ∧
    exAb2.num_candidates = exAb.num_candidates ∧
    exAb2.num_questions = exAb.num_questions :=
  c10_frame exAb (some exData) 2 false [exBatch] exAb2 (by decide)
